import Mathlib

/-!
Shallow embedding of the `css-brewery` color library (`src/createHSLA.ts`,
`src/createBorder.ts`, `src/createShadow.ts`).

Modelling conventions:
* JavaScript numbers are modelled as exact rationals (`ℚ`).  All the
  arithmetic the claims exercise (channel clamping, the truncated `%`
  remainder, the HSL→RGB formula, `Math.round`) is exact on the inputs the
  claims quantify over, so the idealisation is faithful there.
* The one place a NaN arises inside the embedded fragment is
  `parseFloat("")` in `fromStringHSLA` (an empty alpha group).  The alpha
  channel is therefore modelled as `Option ℚ`, with `none` playing the role
  of NaN: `Math.min`/`Math.max`/`+` propagate NaN, which `Option.map`
  reproduces.  Hue, saturation and lightness can never become NaN from the
  embedded entry points (their parses go through `\d+`), so they stay `ℚ`.
* JavaScript `%` is the truncated (sign-of-dividend) remainder, modelled by
  `jsMod` below; `Math.round x` is `⌊x + 1/2⌋`; `Math.min`/`Math.max` are
  `min`/`max` on `ℚ`.
-/

/-- Truncation toward zero, the rounding used by the JavaScript `%`
operator (`a % n = a - n * trunc (a / n)` for finite operands). -/
def ratTrunc (q : ℚ) : ℤ := if 0 ≤ q then ⌊q⌋ else -⌊-q⌋

/-- JavaScript's `%` on numbers: truncated remainder (`fmod`).  The result
has the sign of the dividend, e.g. `jsMod (-10) 360 = -10`. -/
def jsMod (a n : ℚ) : ℚ := a - n * (ratTrunc (a / n) : ℚ)

/-- Model of `Math.round`: round half toward positive infinity. -/
def jsRound (q : ℚ) : ℤ := ⌊q + 1 / 2⌋

/-- The state of an `HSLAObject` from `src/createHSLA.ts`: the four channel
values captured by the closure.  `a = none` models a NaN alpha (see the
file comment); every finite alpha is `some q`. -/
structure HSLA where
  h : ℚ
  s : ℚ
  l : ℚ
  a : Option ℚ
deriving DecidableEq

/-- The clamp `Math.min(1, Math.max(0, a))` on the (possibly NaN) alpha channel;
`Math.max`/`Math.min` return NaN when an argument is NaN, which
`Option.map` reproduces. -/
def clampA (a : Option ℚ) : Option ℚ := a.map fun x => min 1 (max 0 x)

/-- The constructor `createHSLA` from `src/createHSLA.ts` (lines 21–31): the constructor
normalisation `h = h % 360`, `s = min(100, max(0, s))`,
`l = min(100, max(0, l))`, `a = min(1, max(0, a))`.  Call sites in this
embedding always pass all four channels (the TypeScript defaults are
`h=0, s=0, l=0, a=1`). -/
def createHSLA (h s l : ℚ) (a : Option ℚ) : HSLA :=
  { h := jsMod h 360
    s := min 100 (max 0 s)
    l := min 100 (max 0 l)
    a := clampA a }

/-- A `Partial<HSLAValues>` argument: each field is either absent (outer
`none`) or a supplied number.  A supplied hue/saturation/lightness is a
finite number (`ℚ`); a supplied alpha is itself a possibly-NaN number
(`Option ℚ`, inner `none` = NaN), since `HSLA.valueOpt` forwards a color's
stored alpha — which can be NaN — as a delta. -/
structure HSLAOpt where
  h : Option ℚ := none
  s : Option ℚ := none
  l : Option ℚ := none
  a : Option (Option ℚ) := none
deriving DecidableEq

/-- NaN-propagating addition of two possibly-NaN numbers. -/
def jsAdd (a b : Option ℚ) : Option ℚ :=
  match a, b with
  | some x, some y => some (x + y)
  | _, _ => none

/-- The `set` method: replace the supplied channels, keep the rest, and
re-run the constructor normalisation (`newValues.h ?? h`, …). -/
def HSLA.set (c : HSLA) (v : HSLAOpt) : HSLA :=
  createHSLA (v.h.getD c.h) (v.s.getD c.s) (v.l.getD c.l) (v.a.getD c.a)

/-- The `adjust` method (lines 56–63): add each supplied delta (missing
deltas count as 0), take the hue sum `% 360`, clamp the other three
channels, and pass the results through `createHSLA` again. -/
def HSLA.adjust (c : HSLA) (v : HSLAOpt) : HSLA :=
  createHSLA (jsMod (c.h + v.h.getD 0) 360)
    (min 100 (max 0 (c.s + v.s.getD 0)))
    (min 100 (max 0 (c.l + v.l.getD 0)))
    (clampA (jsAdd c.a (v.a.getD (some 0))))

/-- The `hue2rgb` helper inside `toRgb` (lines 83–90), including its
single-step `±1` phase correction. -/
def hue2rgb (p q t : ℚ) : ℚ :=
  let t1 := if t < 0 then t + 1 else t
  let t2 := if t1 > 1 then t1 - 1 else t1
  if t2 < 1 / 6 then p + (q - p) * 6 * t2
  else if t2 < 1 / 2 then q
  else if t2 < 2 / 3 then p + (q - p) * (2 / 3 - t2) * 6
  else p

/-- The `toRgb` method (lines 77–99): achromatic shortcut when `s/100 = 0`,
otherwise the standard HSL→RGB formula; each channel is
`Math.round(x * 255)`. -/
def HSLA.toRgb (c : HSLA) : ℤ × ℤ × ℤ :=
  let l2 := c.l / 100
  let s2 := c.s / 100
  if s2 = 0 then
    (jsRound (l2 * 255), jsRound (l2 * 255), jsRound (l2 * 255))
  else
    let q := if l2 < 1 / 2 then l2 * (1 + s2) else l2 + s2 - l2 * s2
    let p := 2 * l2 - q
    (jsRound (hue2rgb p q (c.h / 360 + 1 / 3) * 255),
     jsRound (hue2rgb p q (c.h / 360) * 255),
     jsRound (hue2rgb p q (c.h / 360 - 1 / 3) * 255))

/-- The relative luminance computed inside `shift` (lines 65–67):
`(0.299*r)/255 + (0.587*g)/255 + (0.114*b)/255` over the `toRgb` triple. -/
def HSLA.luminance (c : HSLA) : ℚ :=
  (0.299 * (c.toRgb.1 : ℚ)) / 255 + (0.587 * (c.toRgb.2.1 : ℚ)) / 255 +
    (0.114 * (c.toRgb.2.2 : ℚ)) / 255

/-- The `shift` method (lines 64–73): adjust lightness by `+amount` when
the luminance is below `0.5`, by `-amount` otherwise. -/
def HSLA.shift (c : HSLA) (amount : ℚ) : HSLA :=
  if c.luminance < 0.5 then c.adjust { l := some amount }
  else c.adjust { l := some (-amount) }

example : jsMod (-10) 360 = -10 := by unfold jsMod ratTrunc; norm_num
example : jsMod 720 360 = 0 := by unfold jsMod ratTrunc; norm_num

/-! ### Decimal rendering of numbers (the template-string interpolation)

`toString` renders `hsla(${h}, ${s}%, ${l}%, ${a})`.  JavaScript prints a
number in positional decimal notation (shortest form, no trailing zeros)
whenever it is an integer of moderate size or a decimal fraction at or
above `1e-6`; every string the theorems below evaluate lies in that
regime.  `numChars` implements exactly that positional rendering for
rationals whose denominator divides a power of ten (for other rationals,
which cannot arise in the claims' scope, it degrades to printing the
numerator; JavaScript's shortest-double rendering has no exact counterpart
over `ℚ`). -/

/-- The ASCII digit character for `n < 10`. -/
def digitChar (n : ℕ) : Char := Char.ofNat (48 + n)

/-- Fuel-driven accumulator loop producing the base-10 digits of `n`
(most significant first), prepended to `acc`. -/
def natDigitsCore : ℕ → ℕ → List Char → List Char
  | 0, _, acc => acc
  | fuel + 1, n, acc =>
    if n < 10 then digitChar n :: acc
    else natDigitsCore fuel (n / 10) (digitChar (n % 10) :: acc)

/-- The base-10 digit string of `n` (e.g. `natDigits 200 = "200".data`). -/
def natDigits (n : ℕ) : List Char := natDigitsCore (n + 1) n []

/-- Recursive restatement of `natDigits`, used for the proofs. -/
def natDigitsRec (n : ℕ) : List Char :=
  if n < 10 then [digitChar n]
  else natDigitsRec (n / 10) ++ [digitChar (n % 10)]
decreasing_by exact Nat.div_lt_self (by omega) (by omega)

/-- The value of a base-10 digit string (the action of `parseInt(_, 10)`
on the all-digits groups the HSLA pattern captures), with accumulator. -/
def parseNatAcc (a : ℕ) (ds : List Char) : ℕ :=
  ds.foldl (fun x c => 10 * x + (c.toNat - 48)) a

/-- Model of `parseInt(_, 10)` on an all-digits string. -/
def parseNat (ds : List Char) : ℕ := parseNatAcc 0 ds

/-- The least `k` with `q.den ∣ 10^k`, i.e. the number of decimal digits
needed after the point; `0` both for integers and (as an out-of-scope
fallback) for rationals that are not decimal fractions.  The search bound
`q.den + 7` dominates the minimal exponent of every decimal fraction. -/
def decExp (q : ℚ) : ℕ :=
  (((List.range (q.den + 7)).find? fun k => decide (q.den ∣ 10 ^ k)).getD 0)

/-- Positional decimal rendering of a nonnegative rational (integer part,
then `.` and exactly `decExp q` fraction digits, zero-padded on the
left). -/
def natNumChars (q : ℚ) : List Char :=
  let k := decExp q
  if k = 0 then natDigits q.num.toNat
  else
    let n := (q * 10 ^ k).num.toNat
    natDigits (n / 10 ^ k) ++
      '.' :: (List.replicate (k - (natDigits (n % 10 ^ k)).length) '0' ++
        natDigits (n % 10 ^ k))

/-- JavaScript's `String(x)` for a finite number in the positional
regime: optional minus sign, then the positional rendering. -/
def numChars (q : ℚ) : List Char :=
  if q < 0 then '-' :: natNumChars (-q) else natNumChars q

/-- Rendering of the alpha channel: `String(NaN) = "NaN"`. -/
def alphaChars (a : Option ℚ) : List Char :=
  match a with
  | none => "NaN".data
  | some q => numChars q

/-- The character list of `toString` (line 74–76):
`hsla(${h}, ${s}%, ${l}%, ${a})`. -/
def renderChars (c : HSLA) : List Char :=
  "hsla(".data ++ numChars c.h ++ ", ".data ++ numChars c.s ++
    "%, ".data ++ numChars c.l ++ "%, ".data ++ alphaChars c.a ++ ")".data

/-- The `toString` method. -/
def HSLA.render (c : HSLA) : String := ⟨renderChars c⟩

/-! ### The HSLA pattern of `fromStringHSLA`

`fromStringHSLA` matches `/hsla\((\d+),\s*(\d+)%,\s*(\d+)%,\s*(\d*(?:\.\d+)?)\)/`
against the input with `String.prototype.match`, i.e. it searches for the
first position at which the pattern matches.  On this pattern the regex
engine is deterministic: every starred/plussed piece is followed by a
character it can never match (`\d+`/`\d*` by `,`, `%`, `.` or `)`, and
`\s*` by `\d`), so greedy scanning without backtracking is exact; the one
genuine alternative — the optional `(?:\.\d+)?` group — is tried and, on
failure, dropped, which the `matchAtHSLA` alpha case reproduces. -/

/-- Greedy `\d*`: split off the leading run of ASCII digits. -/
def takeDigits : List Char → List Char × List Char
  | [] => ([], [])
  | c :: cs =>
    if c.isDigit then
      let r := takeDigits cs
      (c :: r.1, r.2)
    else ([], c :: cs)

/-- The code points matched by the whitespace class `\s`: tab, LF, VT,
FF, CR, space, NBSP, and the Unicode space separators (OGHAM SPACE MARK,
EN QUAD … HAIR SPACE, LINE/PARAGRAPH SEPARATOR, NARROW NO-BREAK SPACE,
MEDIUM MATHEMATICAL SPACE, IDEOGRAPHIC SPACE, BOM/ZWNBSP). -/
def jsSpaceChars : List Char :=
  [' ', '\t', '\n', '\r', Char.ofNat 11, Char.ofNat 12, Char.ofNat 160,
   Char.ofNat 0x1680, Char.ofNat 0x2000, Char.ofNat 0x2001, Char.ofNat 0x2002,
   Char.ofNat 0x2003, Char.ofNat 0x2004, Char.ofNat 0x2005, Char.ofNat 0x2006,
   Char.ofNat 0x2007, Char.ofNat 0x2008, Char.ofNat 0x2009, Char.ofNat 0x200A,
   Char.ofNat 0x2028, Char.ofNat 0x2029, Char.ofNat 0x202F, Char.ofNat 0x205F,
   Char.ofNat 0x3000, Char.ofNat 0xFEFF]

/-- The whitespace class `\s` of the pattern. -/
def isJsSpace (c : Char) : Bool := decide (c ∈ jsSpaceChars)

/-- Greedy `\s*`. -/
def skipSpacesJs : List Char → List Char
  | [] => []
  | c :: cs => if isJsSpace c then skipSpacesJs cs else c :: cs

/-- Match one literal character. -/
def expectCh (c : Char) : List Char → Option (List Char)
  | [] => none
  | x :: xs => if x = c then some xs else none

/-- Match a literal character sequence. -/
def expectStr : List Char → List Char → Option (List Char)
  | [], cs => some cs
  | _ :: _, [] => none
  | p :: ps, c :: cs => if c = p then expectStr ps cs else none

/-- The four capture groups of the HSLA pattern. -/
structure HSLAGroups where
  g1 : List Char
  g2 : List Char
  g3 : List Char
  g4 : List Char
deriving DecidableEq

/-- Match the HSLA pattern at the start of `cs`, returning the capture
groups.  The alpha case first tries the optional `\.\d+` branch and falls
back to the empty alternative exactly as the regex engine does (the
fallback can only succeed when the next character is `)`, which the `.`
that triggered the branch is not). -/
def matchAtHSLA (cs : List Char) : Option HSLAGroups := do
  let cs ← expectStr ("hsla(".data) cs
  let (d1, cs) := takeDigits cs
  if d1 = [] then none else do
  let cs ← expectCh ',' cs
  let cs := skipSpacesJs cs
  let (d2, cs) := takeDigits cs
  if d2 = [] then none else do
  let cs ← expectCh '%' cs
  let cs ← expectCh ',' cs
  let cs := skipSpacesJs cs
  let (d3, cs) := takeDigits cs
  if d3 = [] then none else do
  let cs ← expectCh '%' cs
  let cs ← expectCh ',' cs
  let cs := skipSpacesJs cs
  let (ai, cs) := takeDigits cs
  match cs with
  | '.' :: cs2 =>
    let (af, cs3) := takeDigits cs2
    if af = [] then none else do
    let _ ← expectCh ')' cs3
    pure ⟨d1, d2, d3, ai ++ '.' :: af⟩
  | _ => do
    let _ ← expectCh ')' cs
    pure ⟨d1, d2, d3, ai⟩

/-- Model of `String.prototype.match` with a non-global regex: try the pattern at
every position and return the first match. -/
def searchHSLA : List Char → Option HSLAGroups
  | [] => matchAtHSLA []
  | c :: t =>
    match matchAtHSLA (c :: t) with
    | some g => some g
    | none => searchHSLA t

/-- Model of `parseFloat` on an alpha capture group.  The group shape is
`\d*(\.\d+)?`: an empty group gives NaN (`none`); otherwise the decimal
value of the digits. -/
def parseFloatQ (ds : List Char) : Option ℚ :=
  if ds = [] then none
  else
    let r := takeDigits ds
    match r.2 with
    | '.' :: fs => some ((parseNat r.1 : ℚ) + (parseNat fs : ℚ) / 10 ^ fs.length)
    | _ => some (parseNat r.1)

/-- The parser `fromStringHSLA` (lines 103–114): return `null` when the pattern does
not occur, otherwise feed the parsed channel numbers back through
`createHSLA`. -/
def fromStringHSLA (s : String) : Option HSLA :=
  match searchHSLA s.data with
  | none => none
  | some g =>
    some (createHSLA (parseNat g.g1 : ℚ) (parseNat g.g2 : ℚ)
      (parseNat g.g3 : ℚ) (parseFloatQ g.g4))

/-! ### Borders and shadows (`src/createBorder.ts`, `src/createShadow.ts`) -/

/-- The `BorderStyle` union type. -/
inductive BorderStyle
  | solid | dotted | dashed | double | groove | ridge | inset | outset
  | none | hidden
deriving DecidableEq

/-- The state of a `BorderObject`. -/
structure Border where
  width : ℚ
  style : BorderStyle
  color : HSLA
deriving DecidableEq

/-- A `Partial<BorderValues>` argument. -/
structure BorderOpt where
  width : Option ℚ := none
  style : Option BorderStyle := none
  color : Option HSLA := none

/-- The `value` getter of an HSLA object, as consumed by
`color.adjust(adjustments.color.value)`: all four channels are supplied,
the alpha as the stored possibly-NaN number, so a NaN alpha keeps
propagating through the adjustment exactly as in JavaScript. -/
def HSLA.valueOpt (c : HSLA) : HSLAOpt := ⟨some c.h, some c.s, some c.l, some c.a⟩

/-- The `adjust` method of `createBorder` (lines 91–99).  Note the truthiness test on
the numeric delta: `adjustments.width ? width + adjustments.width : width`
leaves the width unchanged when the delta is `0`. -/
def Border.adjust (b : Border) (v : BorderOpt) : Border :=
  { width :=
      match v.width with
      | some w => if w = 0 then b.width else b.width + w
      | none => b.width
    style := v.style.getD b.style
    color :=
      match v.color with
      | some c => b.color.adjust c.valueOpt
      | none => b.color }

/-- The state of a `ShadowObject`. -/
structure Shadow where
  x : ℚ
  y : ℚ
  blur : ℚ
  spread : ℚ
  color : HSLA
  inset : Bool
deriving DecidableEq

/-- A `Partial<ShadowValues>` argument. -/
structure ShadowOpt where
  x : Option ℚ := none
  y : Option ℚ := none
  blur : Option ℚ := none
  spread : Option ℚ := none
  color : Option HSLA := none
  inset : Option Bool := none

/-- The `adjust` method of `createShadow` (lines 61–72), with the same truthiness
pattern on every numeric field (`adjustments.x ? x + adjustments.x : x`)
and `??` on `inset`. -/
def Shadow.adjust (sh : Shadow) (v : ShadowOpt) : Shadow :=
  { x :=
      match v.x with
      | some d => if d = 0 then sh.x else sh.x + d
      | none => sh.x
    y :=
      match v.y with
      | some d => if d = 0 then sh.y else sh.y + d
      | none => sh.y
    blur :=
      match v.blur with
      | some d => if d = 0 then sh.blur else sh.blur + d
      | none => sh.blur
    spread :=
      match v.spread with
      | some d => if d = 0 then sh.spread else sh.spread + d
      | none => sh.spread
    color :=
      match v.color with
      | some c => sh.color.adjust c.valueOpt
      | none => sh.color
    inset := v.inset.getD sh.inset }

example : natDigits 205 = ['2', '0', '5'] := by decide
example : searchHSLA ("xx hsla(1, 2%, 3%, 1) yy".data) =
    some ⟨['1'], ['2'], ['3'], ['1']⟩ := by decide
example : searchHSLA ("not-a-color".data) = none := by decide
example : searchHSLA ("hsla(0, 0%, 0%, )".data) =
    some ⟨['0'], ['0'], ['0'], []⟩ := by decide

/-- Congruence modulo 360 over `ℚ` (the sense in which two hue values are
"the same hue on the color wheel"). -/
def Qcong360 (x y : ℚ) : Prop := ∃ k : ℤ, x - y = 360 * k

/-- The character strings the alpha capture group `\d*(\.\d+)?` accepts
with at least one character: a nonempty digit run, or a (possibly empty)
digit run, a point, and a nonempty digit run — every integer or decimal
numeral such as `1`, `0.5` or `.5`. -/
def AlphaGroupShape (dA : List Char) : Prop :=
  (dA ≠ [] ∧ ∀ c ∈ dA, c.isDigit = true) ∨
    (∃ ip fp, dA = ip ++ '.' :: fp ∧ (∀ c ∈ ip, c.isDigit = true) ∧ fp ≠ [] ∧
      (∀ c ∈ fp, c.isDigit = true))

/-- The canonical character form `hsla(<H>, <S>%, <L>%, <alpha>)` built
from natural-number h/s/l channels and a raw alpha numeral (any
`AlphaGroupShape` string), used to state the substring-matching claim. -/
def canonHSLAChars (H S L : ℕ) (dA : List Char) : List Char :=
  "hsla(".data ++ natDigits H ++ ", ".data ++ natDigits S ++ "%, ".data ++
    natDigits L ++ "%, ".data ++ dA ++ ")".data

/-! ### Digit-string lemmas -/

lemma natDigitsCore_eq_rec (fuel : ℕ) :
    ∀ n acc, n < fuel → natDigitsCore fuel n acc = natDigitsRec n ++ acc := by
  induction fuel with
  | zero => intro n acc hn; omega
  | succ f ih =>
    intro n acc hn
    rw [natDigitsCore, natDigitsRec]
    by_cases h10 : n < 10
    · rw [if_pos h10, if_pos h10]
      rfl
    · rw [if_neg h10, if_neg h10]
      have hlt : n / 10 < f := by
        have h1 : n / 10 < n := Nat.div_lt_self (by omega) (by omega)
        omega
      rw [ih (n / 10) (digitChar (n % 10) :: acc) hlt]
      simp

lemma natDigits_eq_rec (n : ℕ) : natDigits n = natDigitsRec n := by
  have := natDigitsCore_eq_rec (n + 1) n [] (by omega)
  simpa [natDigits] using this

lemma digitChar_toNat {n : ℕ} (h : n < 10) : (digitChar n).toNat = 48 + n := by
  interval_cases n <;> decide

lemma digitChar_isDigit {n : ℕ} (h : n < 10) : (digitChar n).isDigit = true := by
  interval_cases n <;> decide

lemma natDigitsRec_ne_nil (n : ℕ) : natDigitsRec n ≠ [] := by
  rw [natDigitsRec]
  by_cases h10 : n < 10
  · simp [h10]
  · simp [h10]

lemma natDigitsRec_all_digit (n : ℕ) : ∀ c ∈ natDigitsRec n, c.isDigit = true := by
  induction n using Nat.strong_induction_on with
  | _ n ih =>
    rw [natDigitsRec]
    by_cases h10 : n < 10
    · simp only [if_pos h10, List.mem_singleton]
      rintro c rfl
      exact digitChar_isDigit h10
    · simp only [if_neg h10, List.mem_append, List.mem_singleton]
      rintro c (hc | rfl)
      · exact ih (n / 10) (Nat.div_lt_self (by omega) (by omega)) c hc
      · exact digitChar_isDigit (Nat.mod_lt n (by omega))

lemma parseNatAcc_append (a : ℕ) (ds es : List Char) :
    parseNatAcc a (ds ++ es) = parseNatAcc (parseNatAcc a ds) es := by
  simp [parseNatAcc, List.foldl_append]

lemma parseNatAcc_natDigitsRec (a n : ℕ) :
    parseNatAcc a (natDigitsRec n) = a * 10 ^ (natDigitsRec n).length + n := by
  induction n using Nat.strong_induction_on generalizing a with
  | _ n ih =>
    rw [natDigitsRec]
    by_cases h10 : n < 10
    · rw [if_pos h10]
      simp [parseNatAcc, digitChar_toNat h10]
      ring
    · rw [if_neg h10]
      rw [parseNatAcc_append]
      rw [ih (n / 10) (Nat.div_lt_self (by omega) (by omega)) a]
      have hm : n % 10 < 10 := Nat.mod_lt n (by omega)
      simp [parseNatAcc, digitChar_toNat hm, List.length_append]
      have hdm : 10 * (n / 10) + n % 10 = n := by omega
      ring_nf
      omega

lemma parseNat_natDigits (n : ℕ) : parseNat (natDigits n) = n := by
  rw [natDigits_eq_rec, parseNat, parseNatAcc_natDigitsRec]
  simp

lemma natDigits_ne_nil (n : ℕ) : natDigits n ≠ [] := by
  rw [natDigits_eq_rec]; exact natDigitsRec_ne_nil n

lemma natDigits_all_digit (n : ℕ) : ∀ c ∈ natDigits n, c.isDigit = true := by
  rw [natDigits_eq_rec]; exact natDigitsRec_all_digit n

lemma natDigitsRec_length_le {n k : ℕ} (hk : 1 ≤ k) (hn : n < 10 ^ k) :
    (natDigitsRec n).length ≤ k := by
  induction n using Nat.strong_induction_on generalizing k with
  | _ n ih =>
    rw [natDigitsRec]
    by_cases h10 : n < 10
    · simpa [h10] using hk
    · rw [if_neg h10]
      have hk2 : 2 ≤ k := by
        by_contra hcon
        interval_cases k <;> omega
      have hdiv : n / 10 < 10 ^ (k - 1) := by
        have : n < 10 ^ (k - 1) * 10 := by
          have hp : 10 ^ (k - 1) * 10 = 10 ^ k := by
            have : k - 1 + 1 = k := by omega
            calc 10 ^ (k - 1) * 10 = 10 ^ (k - 1 + 1) := by ring
              _ = 10 ^ k := by rw [this]
          omega
        omega
      have := ih (n / 10) (Nat.div_lt_self (by omega) (by omega)) (by omega) hdiv
      simp only [List.length_append, List.length_singleton]
      omega

lemma parseNat_replicate_zero_append (z : ℕ) (ds : List Char) :
    parseNat (List.replicate z '0' ++ ds) = parseNat ds := by
  induction z with
  | zero => simp
  | succ m ih =>
    have : List.replicate (m + 1) '0' ++ ds = '0' :: (List.replicate m '0' ++ ds) := by
      simp [List.replicate_succ]
    rw [this]
    simpa [parseNat, parseNatAcc] using ih

/-! ### Rendering/parsing lemmas for channel values -/

lemma decExp_den_one {q : ℚ} (hden : q.den = 1) : decExp q = 0 := by
  unfold decExp
  rw [hden]
  decide

lemma natNumChars_natCast (n : ℕ) : natNumChars (n : ℚ) = natDigits n := by
  unfold natNumChars
  rw [decExp_den_one (Rat.den_natCast n)]
  simp [Rat.num_natCast]

lemma numChars_natCast (n : ℕ) : numChars (n : ℚ) = natDigits n := by
  unfold numChars
  rw [if_neg (not_lt.mpr (Nat.cast_nonneg n)), natNumChars_natCast]

lemma numChars_neg_natCast (n : ℕ) (hn : 0 < n) :
    numChars (-(n : ℚ)) = '-' :: natDigits n := by
  have hpos : (0 : ℚ) < (n : ℚ) := by exact_mod_cast hn
  unfold numChars
  rw [if_pos (by linarith), neg_neg, natNumChars_natCast]

lemma decExp_dvd {A : ℚ} (hden : A.den ∣ 10 ^ 6) : A.den ∣ 10 ^ decExp A := by
  unfold decExp
  rcases hfind : (List.range (A.den + 7)).find? fun k => decide (A.den ∣ 10 ^ k) with
    _ | k
  · exfalso
    have h6 := List.find?_eq_none.mp hfind 6 (List.mem_range.mpr (by omega))
    simp at h6
    exact h6 hden
  · have := List.find?_some hfind
    simpa using this

lemma takeDigits_append (ds rest : List Char) (hdig : ∀ c ∈ ds, c.isDigit = true)
    (hrest : ∀ c, rest.head? = some c → c.isDigit = false) :
    takeDigits (ds ++ rest) = (ds, rest) := by
  induction ds with
  | nil =>
    cases rest with
    | nil => rfl
    | cons r t => simp [takeDigits, hrest r rfl]
  | cons d t ih =>
    have hd : d.isDigit = true := hdig d (by simp)
    have ht : ∀ c ∈ t, c.isDigit = true := fun c hc => hdig c (by simp [hc])
    simp [takeDigits, hd, ih ht]

lemma takeDigits_all (ds : List Char) (hdig : ∀ c ∈ ds, c.isDigit = true) :
    takeDigits ds = (ds, []) := by
  have := takeDigits_append ds [] hdig (by simp)
  simpa using this

lemma parseFloatQ_digits (ds : List Char) (hne : ds ≠ [])
    (hdig : ∀ c ∈ ds, c.isDigit = true) :
    parseFloatQ ds = some ((parseNat ds : ℚ)) := by
  unfold parseFloatQ
  rw [if_neg hne, takeDigits_all ds hdig]

lemma rat_eq_num_toNat {A : ℚ} (h0 : 0 ≤ A) (hden : A.den = 1) :
    A = (A.num.toNat : ℚ) := by
  have h2 : (A.num : ℚ) = A := by
    have := Rat.num_div_den A
    rw [hden] at this
    simpa using this
  have h3 : 0 ≤ A.num := Rat.num_nonneg.mpr h0
  rw [← h2]
  exact_mod_cast (Int.toNat_of_nonneg h3).symm

lemma rat_mul_pow_natCast {A : ℚ} {k : ℕ} (h0 : 0 ≤ A) (hdvd : A.den ∣ 10 ^ k) :
    A * 10 ^ k = (((A * 10 ^ k).num.toNat : ℕ) : ℚ) := by
  obtain ⟨m, hm⟩ := hdvd
  have hden0 : ((A.den : ℚ)) ≠ 0 := by
    exact_mod_cast A.den_nz
  have hqden : A * (A.den : ℚ) = (A.num : ℚ) := by
    rw [eq_comm, ← div_eq_iff hden0]
    exact Rat.num_div_den A
  have hcast : ((10 : ℚ)) ^ k = ((A.den : ℚ)) * ((m : ℚ)) := by
    exact_mod_cast hm
  have hval : A * 10 ^ k = ((A.num * m : ℤ) : ℚ) := by
    rw [hcast]
    push_cast
    rw [← mul_assoc, hqden]
  have hnum : (A * 10 ^ k).num = A.num * m := by
    rw [hval, Rat.num_intCast]
  have hnonneg : 0 ≤ A.num * m := by
    have := Rat.num_nonneg.mpr h0
    positivity
  rw [hnum, hval]
  exact_mod_cast (Int.toNat_of_nonneg hnonneg).symm

lemma decimal_key {A : ℚ} {k : ℕ} (h0 : 0 ≤ A) (hdvd : A.den ∣ 10 ^ k) :
    A = (((A * 10 ^ k).num.toNat : ℕ) : ℚ) / 10 ^ k := by
  have := rat_mul_pow_natCast h0 hdvd
  have hne : ((10 : ℚ)) ^ k ≠ 0 := by positivity
  field_simp
  linarith [this]

lemma numChars_nonneg {A : ℚ} (h0 : 0 ≤ A) : numChars A = natNumChars A := by
  unfold numChars
  rw [if_neg (not_lt.mpr h0)]

lemma natNumChars_int {A : ℚ} (hden : A.den = 1) :
    natNumChars A = natDigits A.num.toNat := by
  unfold natNumChars
  rw [decExp_den_one hden]
  simp

lemma parseFloatQ_dot (ip fp : List Char) (hip : ∀ c ∈ ip, c.isDigit = true) :
    parseFloatQ (ip ++ '.' :: fp) =
      some ((parseNat ip : ℚ) + (parseNat fp : ℚ) / 10 ^ fp.length) := by
  unfold parseFloatQ
  rw [if_neg (by simp), takeDigits_append ip ('.' :: fp) hip (by
    intro c hc
    simp only [List.head?_cons, Option.some.injEq] at hc
    subst hc
    decide)]
  rfl

lemma natNumChars_decimal {A : ℚ} (h0 : 0 ≤ A) (h1 : A ≤ 1) (hden6 : A.den ∣ 10 ^ 6)
    (hd1 : A.den ≠ 1) :
    ∃ ip fp, natNumChars A = ip ++ '.' :: fp ∧ ip ≠ [] ∧ fp ≠ [] ∧
      (∀ c ∈ ip, c.isDigit = true) ∧ (∀ c ∈ fp, c.isDigit = true) ∧
      (parseNat ip : ℚ) + (parseNat fp : ℚ) / 10 ^ fp.length = A := by
  have hk : A.den ∣ 10 ^ decExp A := decExp_dvd hden6
  set k := decExp A with hkdef
  have hk0 : k ≠ 0 := by
    intro h
    rw [h] at hk
    simp only [pow_zero, Nat.dvd_one] at hk
    exact hd1 hk
  set n := (A * 10 ^ k).num.toNat with hndef
  have hkey : A = (n : ℚ) / 10 ^ k := decimal_key h0 hk
  have hA1 : A < 1 := by
    rcases lt_or_eq_of_le h1 with h | h
    · exact h
    · exact absurd (by rw [h]; exact Rat.den_one) hd1
  have hppos : (0 : ℚ) < 10 ^ k := by positivity
  have hn_lt : n < 10 ^ k := by
    have h2 : ((n : ℚ)) < ((10 ^ k : ℕ) : ℚ) := by
      have h3 : ((n : ℚ)) = A * 10 ^ k := (rat_mul_pow_natCast h0 hk).symm
      push_cast
      nlinarith [h3, hppos]
    exact_mod_cast h2
  have h1k : 1 ≤ k := Nat.one_le_iff_ne_zero.mpr hk0
  have hfplen : (natDigits (n % 10 ^ k)).length ≤ k := by
    rw [natDigits_eq_rec]
    exact natDigitsRec_length_le h1k (Nat.mod_lt _ (by positivity))
  refine ⟨natDigits (n / 10 ^ k),
    List.replicate (k - (natDigits (n % 10 ^ k)).length) '0' ++ natDigits (n % 10 ^ k),
    ?_, natDigits_ne_nil _, (by simp [natDigits_ne_nil]), natDigits_all_digit _, ?_, ?_⟩
  · unfold natNumChars
    rw [← hkdef, if_neg hk0, ← hndef]
  · intro c hc
    rcases List.mem_append.mp hc with hc | hc
    · rw [List.eq_of_mem_replicate hc]; decide
    · exact natDigits_all_digit _ c hc
  · rw [parseNat_replicate_zero_append, parseNat_natDigits, parseNat_natDigits]
    have hlen : (List.replicate (k - (natDigits (n % 10 ^ k)).length) '0' ++
        natDigits (n % 10 ^ k)).length = k := by
      simp only [List.length_append, List.length_replicate]
      omega
    rw [hlen, hkey]
    have hdm := Nat.div_add_mod n (10 ^ k)
    have hcast : ((10 ^ k * (n / 10 ^ k) + n % 10 ^ k : ℕ) : ℚ) = (n : ℚ) := by
      exact_mod_cast congrArg (fun x : ℕ => (x : ℚ)) hdm
    push_cast at hcast
    have hne : ((10 : ℚ)) ^ k ≠ 0 := by positivity
    field_simp
    linarith [hcast]

lemma alpha_chars_spec {A : ℚ} (h0 : 0 ≤ A) (h1 : A ≤ 1) (hden6 : A.den ∣ 10 ^ 6) :
    ((numChars A ≠ [] ∧ (∀ c ∈ numChars A, c.isDigit = true)) ∨
      (∃ ip fp, numChars A = ip ++ '.' :: fp ∧ ip ≠ [] ∧ fp ≠ [] ∧
        (∀ c ∈ ip, c.isDigit = true) ∧ (∀ c ∈ fp, c.isDigit = true))) ∧
    parseFloatQ (numChars A) = some A := by
  rw [numChars_nonneg h0]
  by_cases hd1 : A.den = 1
  · rw [natNumChars_int hd1]
    refine ⟨Or.inl ⟨natDigits_ne_nil _, natDigits_all_digit _⟩, ?_⟩
    rw [parseFloatQ_digits _ (natDigits_ne_nil _) (natDigits_all_digit _),
      parseNat_natDigits]
    rw [← rat_eq_num_toNat h0 hd1]
  · obtain ⟨ip, fp, heq, hipne, hfpne, hipdig, hfpdig, hval⟩ :=
      natNumChars_decimal h0 h1 hden6 hd1
    rw [heq]
    refine ⟨Or.inr ⟨ip, fp, rfl, hipne, hfpne, hipdig, hfpdig⟩, ?_⟩
    rw [parseFloatQ_dot ip fp hipdig, hval]

/-! ### Numeric lemmas about the channel operations -/

lemma jsMod_nonneg_lt {a : ℚ} (h0 : 0 ≤ a) :
    0 ≤ jsMod a 360 ∧ jsMod a 360 < 360 := by
  unfold jsMod ratTrunc
  rw [if_pos (by positivity : (0 : ℚ) ≤ a / 360)]
  have hx : ((⌊a / 360⌋ : ℚ)) ≤ a / 360 := Int.floor_le _
  have hy : a / 360 < (⌊a / 360⌋ : ℚ) + 1 := Int.lt_floor_add_one _
  have ha : 360 * (a / 360) = a := by ring
  constructor <;> nlinarith [hx, hy, ha]

lemma jsMod_eq_self {a : ℚ} (h0 : 0 ≤ a) (h1 : a < 360) : jsMod a 360 = a := by
  unfold jsMod ratTrunc
  rw [if_pos (by positivity : (0 : ℚ) ≤ a / 360)]
  have hfl : ⌊a / 360⌋ = 0 := by
    rw [Int.floor_eq_zero_iff]
    constructor
    · positivity
    · rw [div_lt_one (by norm_num : (0 : ℚ) < 360)]
      exact h1
  rw [hfl]
  push_cast
  ring

lemma jsMod_congr (a : ℚ) : Qcong360 (jsMod a 360) a :=
  ⟨-(ratTrunc (a / 360)), by unfold jsMod; push_cast; ring⟩

lemma qcong_symm {x y : ℚ} : Qcong360 x y → Qcong360 y x :=
  fun ⟨k, hk⟩ => ⟨-k, by push_cast; linarith⟩

lemma qcong_trans {x y z : ℚ} : Qcong360 x y → Qcong360 y z → Qcong360 x z :=
  fun ⟨k1, h1⟩ ⟨k2, h2⟩ => ⟨k1 + k2, by push_cast; linarith⟩

lemma qcong_add_right {x y : ℚ} (d : ℚ) : Qcong360 x y → Qcong360 (x + d) (y + d) :=
  fun ⟨k, hk⟩ => ⟨k, by linarith⟩

lemma jsMod2_congr (a : ℚ) : Qcong360 (jsMod (jsMod a 360) 360) a :=
  qcong_trans (jsMod_congr _) (jsMod_congr a)

lemma jsRound_range {x : ℚ} (h0 : 0 ≤ x) (h1 : x ≤ 255) :
    0 ≤ jsRound x ∧ jsRound x ≤ 255 := by
  unfold jsRound
  constructor
  · exact Int.floor_nonneg.mpr (by linarith)
  · have : ⌊x + 1 / 2⌋ < 256 := Int.floor_lt.mpr (by push_cast; linarith)
    omega

lemma hue2rgb_core_range {p q u : ℚ} (hp : 0 ≤ p) (hpq : p ≤ q) (hq : q ≤ 1)
    (hu0 : 0 ≤ u) (hu1 : u ≤ 1) :
    0 ≤ (if u < 1 / 6 then p + (q - p) * 6 * u
      else if u < 1 / 2 then q
      else if u < 2 / 3 then p + (q - p) * (2 / 3 - u) * 6
      else p) ∧
    (if u < 1 / 6 then p + (q - p) * 6 * u
      else if u < 1 / 2 then q
      else if u < 2 / 3 then p + (q - p) * (2 / 3 - u) * 6
      else p) ≤ 1 := by
  have hqp : (0 : ℚ) ≤ q - p := by linarith
  split_ifs with h1 h2 h3
  · constructor
    · nlinarith [mul_nonneg hqp hu0]
    · nlinarith [mul_nonneg hqp (by linarith : (0 : ℚ) ≤ 1 - 6 * u)]
  · exact ⟨le_trans hp hpq, hq⟩
  · constructor
    · nlinarith [mul_nonneg hqp (by linarith : (0 : ℚ) ≤ 2 / 3 - u)]
    · nlinarith [mul_nonneg hqp (by linarith : (0 : ℚ) ≤ 1 - (2 / 3 - u) * 6)]
  · exact ⟨hp, le_trans hpq hq⟩

lemma hue2rgb_range {p q t : ℚ} (hp : 0 ≤ p) (hpq : p ≤ q) (hq : q ≤ 1)
    (ht0 : -(1 / 3) ≤ t) (ht1 : t ≤ 4 / 3) :
    0 ≤ hue2rgb p q t ∧ hue2rgb p q t ≤ 1 := by
  unfold hue2rgb
  dsimp only
  by_cases h1 : t < 0
  · rw [if_pos h1, if_neg (by linarith : ¬(t + 1 > 1))]
    exact hue2rgb_core_range hp hpq hq (by linarith) (by linarith)
  · rw [if_neg h1]
    by_cases h2 : t > 1
    · rw [if_pos h2]
      exact hue2rgb_core_range hp hpq hq (by linarith) (by linarith)
    · rw [if_neg h2]
      exact hue2rgb_core_range hp hpq hq (by linarith) (by linarith)

lemma rgb_component_range {p q t : ℚ} (hp : 0 ≤ p) (hpq : p ≤ q) (hq : q ≤ 1)
    (ht0 : -(1 / 3) ≤ t) (ht1 : t ≤ 4 / 3) :
    0 ≤ jsRound (hue2rgb p q t * 255) ∧ jsRound (hue2rgb p q t * 255) ≤ 255 := by
  obtain ⟨hl, hr⟩ := hue2rgb_range hp hpq hq ht0 ht1
  exact jsRound_range (by nlinarith) (by nlinarith)

set_option maxHeartbeats 1000000 in
lemma toRgb_range (c : HSLA) (hh0 : 0 ≤ c.h) (hh1 : c.h < 360)
    (hs0 : 0 ≤ c.s) (hs1 : c.s ≤ 100) (hl0 : 0 ≤ c.l) (hl1 : c.l ≤ 100) :
    (0 ≤ c.toRgb.1 ∧ c.toRgb.1 ≤ 255) ∧ (0 ≤ c.toRgb.2.1 ∧ c.toRgb.2.1 ≤ 255) ∧
      (0 ≤ c.toRgb.2.2 ∧ c.toRgb.2.2 ≤ 255) := by
  have hl2a : 0 ≤ c.l / 100 := by positivity
  have hl2b : c.l / 100 ≤ 1 := by
    rw [div_le_one (by norm_num : (0 : ℚ) < 100)]
    exact hl1
  have hs2a : 0 ≤ c.s / 100 := by positivity
  have hs2b : c.s / 100 ≤ 1 := by
    rw [div_le_one (by norm_num : (0 : ℚ) < 100)]
    exact hs1
  have hta : 0 ≤ c.h / 360 := by positivity
  have htb : c.h / 360 < 1 := by
    rw [div_lt_one (by norm_num : (0 : ℚ) < 360)]
    exact hh1
  have key : ∀ u : ℚ, -(1 / 3) ≤ u → u ≤ 4 / 3 →
      ∀ qv : ℚ, 0 ≤ 2 * (c.l / 100) - qv → 2 * (c.l / 100) - qv ≤ qv → qv ≤ 1 →
      0 ≤ jsRound (hue2rgb (2 * (c.l / 100) - qv) qv u * 255) ∧
        jsRound (hue2rgb (2 * (c.l / 100) - qv) qv u * 255) ≤ 255 :=
    fun u hu0 hu1 qv h1 h2 h3 => rgb_component_range h1 h2 h3 hu0 hu1
  have hm1 : (0 : ℚ) ≤ (c.l / 100) * (c.s / 100) := mul_nonneg hl2a hs2a
  have hm2 : (0 : ℚ) ≤ (c.l / 100) * (1 - c.s / 100) := mul_nonneg hl2a (by linarith)
  have hm3 : (0 : ℚ) ≤ (1 - c.l / 100) * (1 - c.s / 100) :=
    mul_nonneg (by linarith) (by linarith)
  have hm4 : (0 : ℚ) ≤ (1 - c.l / 100) * (c.s / 100) := mul_nonneg (by linarith) hs2a
  unfold HSLA.toRgb
  dsimp only
  split_ifs with hs hq hq
  · have h255a : 0 ≤ c.l / 100 * 255 := by positivity
    have h255b : c.l / 100 * 255 ≤ 255 := by nlinarith
    have := jsRound_range h255a h255b
    exact ⟨this, this, this⟩
  · dsimp only
    refine ⟨key (c.h / 360 + 1 / 3) (by linarith) (by linarith)
        (c.l / 100 * (1 + c.s / 100)) ?_ ?_ ?_,
      key (c.h / 360) (by linarith) (by linarith)
        (c.l / 100 * (1 + c.s / 100)) ?_ ?_ ?_,
      key (c.h / 360 - 1 / 3) (by linarith) (by linarith)
        (c.l / 100 * (1 + c.s / 100)) ?_ ?_ ?_⟩ <;> (clear key; nlinarith)
  · dsimp only
    refine ⟨key (c.h / 360 + 1 / 3) (by linarith) (by linarith)
        (c.l / 100 + c.s / 100 - c.l / 100 * (c.s / 100)) ?_ ?_ ?_,
      key (c.h / 360) (by linarith) (by linarith)
        (c.l / 100 + c.s / 100 - c.l / 100 * (c.s / 100)) ?_ ?_ ?_,
      key (c.h / 360 - 1 / 3) (by linarith) (by linarith)
        (c.l / 100 + c.s / 100 - c.l / 100 * (c.s / 100)) ?_ ?_ ?_⟩ <;> (clear key; nlinarith)

/-! ### Claim C1 -/

/-- Claim C1 (amended): for every Construct input with `0 ≤ h`, the stored
channels satisfy `0 ≤ hue < 360`, `0 ≤ saturation ≤ 100`,
`0 ≤ lightness ≤ 100` and `0 ≤ alpha ≤ 1`, whatever the magnitude of the
inputs.  The saturation/lightness/alpha clamps need no sign condition, but
the hue wrap is JavaScript's sign-preserving `%`, so a negative `h` input
stores a negative hue (see the counterexample below) — the original
claim's "negative results wrap to positive" does not hold. -/
theorem hsla_construct_channel_ranges (h s l a : ℚ) (hh : 0 ≤ h) :
    (0 ≤ (createHSLA h s l (some a)).h ∧ (createHSLA h s l (some a)).h < 360) ∧
    (0 ≤ (createHSLA h s l (some a)).s ∧ (createHSLA h s l (some a)).s ≤ 100) ∧
    (0 ≤ (createHSLA h s l (some a)).l ∧ (createHSLA h s l (some a)).l ≤ 100) ∧
    ∃ aq : ℚ, (createHSLA h s l (some a)).a = some aq ∧ 0 ≤ aq ∧ aq ≤ 1 := by
  refine ⟨jsMod_nonneg_lt hh, ⟨?_, ?_⟩, ⟨?_, ?_⟩, min 1 (max 0 a), rfl, ?_, ?_⟩
  · exact le_min (by norm_num) (le_max_left 0 s)
  · exact min_le_left _ _
  · exact le_min (by norm_num) (le_max_left 0 l)
  · exact min_le_left _ _
  · exact le_min (by norm_num) (le_max_left 0 a)
  · exact min_le_left _ _

/-- Witness for C1 at the spec's own example inputs
(`h=720`, `s=150`, `a=-1`). -/
theorem hsla_construct_channel_ranges_witness :
    (0 ≤ (createHSLA 720 150 50 (some (-1))).h ∧
      (createHSLA 720 150 50 (some (-1))).h < 360) ∧
    (0 ≤ (createHSLA 720 150 50 (some (-1))).s ∧
      (createHSLA 720 150 50 (some (-1))).s ≤ 100) ∧
    (0 ≤ (createHSLA 720 150 50 (some (-1))).l ∧
      (createHSLA 720 150 50 (some (-1))).l ≤ 100) ∧
    ∃ aq : ℚ, (createHSLA 720 150 50 (some (-1))).a = some aq ∧
      0 ≤ aq ∧ aq ≤ 1 :=
  hsla_construct_channel_ranges 720 150 50 (-1) (by norm_num)

/-- Counterexample to C1 as stated: `Construct` with `h = -10` stores
hue `-10` (JavaScript `%` keeps the dividend's sign), violating
`0 ≤ hue`. -/
theorem hsla_negative_hue_escapes_range :
    (createHSLA (-10) 150 50 (some (-1))).h = -10 ∧
    ¬ 0 ≤ (createHSLA (-10) 150 50 (some (-1))).h := by
  have h1 : (createHSLA (-10) 150 50 (some (-1))).h = -10 := by
    show jsMod (-10) 360 = -10
    unfold jsMod ratTrunc
    norm_num
  refine ⟨h1, ?_⟩
  rw [h1]
  norm_num

/-! ### Claim C3 -/

/-- Claim C3 (amended): for every ColorValue produced by `Construct` from
an input with `0 ≤ h` (in particular every parsed color), `toRgb` returns
three integers in the closed range 0–255.  For negative `h` the stored hue
is negative and the conversion can leave the range (see the
counterexample). -/
theorem toRgb_in_range_of_nonneg_hue (h s l : ℚ) (a : Option ℚ) (hh : 0 ≤ h) :
    (0 ≤ (createHSLA h s l a).toRgb.1 ∧ (createHSLA h s l a).toRgb.1 ≤ 255) ∧
    (0 ≤ (createHSLA h s l a).toRgb.2.1 ∧ (createHSLA h s l a).toRgb.2.1 ≤ 255) ∧
    (0 ≤ (createHSLA h s l a).toRgb.2.2 ∧ (createHSLA h s l a).toRgb.2.2 ≤ 255) := by
  apply toRgb_range
  · exact (jsMod_nonneg_lt hh).1
  · exact (jsMod_nonneg_lt hh).2
  · exact le_min (by norm_num) (le_max_left 0 s)
  · exact min_le_left _ _
  · exact le_min (by norm_num) (le_max_left 0 l)
  · exact min_le_left _ _

/-- Witness for C3 at the spec's scenario input `{h:300, s:75, l:50, a:0.8}`. -/
theorem toRgb_in_range_of_nonneg_hue_witness :
    (0 ≤ (createHSLA 300 75 50 (some 0.8)).toRgb.1 ∧
      (createHSLA 300 75 50 (some 0.8)).toRgb.1 ≤ 255) ∧
    (0 ≤ (createHSLA 300 75 50 (some 0.8)).toRgb.2.1 ∧
      (createHSLA 300 75 50 (some 0.8)).toRgb.2.1 ≤ 255) ∧
    (0 ≤ (createHSLA 300 75 50 (some 0.8)).toRgb.2.2 ∧
      (createHSLA 300 75 50 (some 0.8)).toRgb.2.2 ≤ 255) :=
  toRgb_in_range_of_nonneg_hue 300 75 50 (some 0.8) (by norm_num)

/-- Counterexample to C3 as stated: the ColorValue built from
`{h:-359, s:100, l:50}` (a legal `Construct` call) has a blue component of
`-506`, far outside 0–255: the wrapped phase `h/360 - 1/3 + 1` is still
negative, and the first `hue2rgb` branch extrapolates below `p`. -/
theorem toRgb_negative_hue_out_of_range :
    (createHSLA (-359) 100 50 (some 1)).toRgb.2.2 = -506 ∧
    (createHSLA (-359) 100 50 (some 1)).toRgb.2.2 < 0 := by
  have hc : createHSLA (-359) 100 50 (some 1) = ⟨-359, 100, 50, some 1⟩ := by
    unfold createHSLA clampA jsMod ratTrunc
    norm_num
  have hb : (createHSLA (-359) 100 50 (some 1)).toRgb.2.2 = -506 := by
    rw [hc]
    unfold HSLA.toRgb hue2rgb jsRound
    norm_num
  exact ⟨hb, by rw [hb]; norm_num⟩

/-! ### Claim C5 -/

/-- Claim C5: two successive hue adjustments by `d1` and `d2` land on a
hue congruent (mod 360) to a single adjustment by `d1 + d2`. -/
theorem adjust_hue_deltas_compose (c : HSLA) (d1 d2 : ℚ) :
    Qcong360 ((c.adjust { h := some d1 }).adjust { h := some d2 }).h
      (c.adjust { h := some (d1 + d2) }).h := by
  have e1 : ∀ (x : HSLA) (d : ℚ), (x.adjust { h := some d }).h =
      jsMod (jsMod (x.h + d) 360) 360 := fun x d => rfl
  rw [e1, e1, e1]
  have L1 := jsMod2_congr (jsMod (jsMod (c.h + d1) 360) 360 + d2)
  have L2 : Qcong360 (jsMod (jsMod (c.h + d1) 360) 360 + d2) (c.h + d1 + d2) :=
    qcong_add_right d2 (jsMod2_congr (c.h + d1))
  refine qcong_trans (qcong_trans L1 L2) ?_
  have hassoc : c.h + d1 + d2 = c.h + (d1 + d2) := by ring
  rw [hassoc]
  exact qcong_symm (jsMod2_congr (c.h + (d1 + d2)))

/-! ### Claim C6 -/

/-- Claim C6: a ColorValue with saturation 0 converts to the achromatic
triple `R = G = B = round(lightness/100 * 255)`, whatever its hue. -/
theorem toRgb_achromatic_gray (c : HSLA) (hs : c.s = 0) :
    c.toRgb = (jsRound (c.l / 100 * 255), jsRound (c.l / 100 * 255),
      jsRound (c.l / 100 * 255)) := by
  unfold HSLA.toRgb
  rw [hs]
  norm_num

/-- Witness for C6: the gray built from `{h:123, s:0, l:50}`. -/
theorem toRgb_achromatic_gray_witness :
    (createHSLA 123 0 50 (some 1)).toRgb =
      (jsRound ((createHSLA 123 0 50 (some 1)).l / 100 * 255),
       jsRound ((createHSLA 123 0 50 (some 1)).l / 100 * 255),
       jsRound ((createHSLA 123 0 50 (some 1)).l / 100 * 255)) :=
  toRgb_achromatic_gray _ (by show min (100 : ℚ) (max 0 0) = 0; norm_num)

/-! ### Claim C8 -/

/-- Claim C8: a zero delta for a width-like numeric field of a border or
shadow `adjust` is falsy in the `adjustments.width ? … : width` pattern,
so it leaves the field unchanged and the whole result is identical to
omitting the delta. -/
theorem border_shadow_zero_delta_noop (b : Border) (sh : Shadow) :
    b.adjust { width := some 0 } = b.adjust {} ∧
    (b.adjust { width := some 0 }).width = b.width ∧
    sh.adjust { x := some 0 } = sh.adjust {} ∧
    (sh.adjust { x := some 0 }).x = sh.x := by
  refine ⟨?_, ?_, ?_, ?_⟩ <;> simp [Border.adjust, Shadow.adjust]

/-! ### Claim C4 -/

lemma createHSLA_200 : createHSLA 200 100 50 (some 1) = ⟨200, 100, 50, some 1⟩ := by
  unfold createHSLA clampA jsMod ratTrunc
  norm_num

lemma toRgb_200 : ((⟨200, 100, 50, some 1⟩ : HSLA)).toRgb = (0, 170, 255) := by
  unfold HSLA.toRgb hue2rgb jsRound
  norm_num

lemma luminance_200 : ((⟨200, 100, 50, some 1⟩ : HSLA)).luminance = 379 / 750 := by
  unfold HSLA.luminance
  rw [toRgb_200]
  norm_num

lemma shift_200 : (createHSLA 200 100 50 (some 1)).shift 60 = ⟨200, 100, 0, some 1⟩ := by
  rw [createHSLA_200]
  unfold HSLA.shift
  rw [luminance_200, if_neg (by norm_num)]
  unfold HSLA.adjust createHSLA clampA jsAdd jsMod ratTrunc
  norm_num

lemma render_200 : HSLA.render ((⟨200, 100, 0, some 1⟩ : HSLA)) = "hsla(200, 100%, 0%, 1)" := by
  unfold HSLA.render renderChars alphaChars
  dsimp only
  have n200 : numChars ((200 : ℚ)) = natDigits 200 := by
    rw [show ((200 : ℚ)) = ((200 : ℕ) : ℚ) by norm_num, numChars_natCast]
  have n100 : numChars ((100 : ℚ)) = natDigits 100 := by
    rw [show ((100 : ℚ)) = ((100 : ℕ) : ℚ) by norm_num, numChars_natCast]
  have n0 : numChars ((0 : ℚ)) = natDigits 0 := by
    rw [show ((0 : ℚ)) = ((0 : ℕ) : ℚ) by norm_num, numChars_natCast]
  have n1 : numChars ((1 : ℚ)) = natDigits 1 := by
    rw [show ((1 : ℚ)) = ((1 : ℕ) : ℚ) by norm_num, numChars_natCast]
  rw [n200, n100, n0, n1]
  decide

lemma shift_200_render :
    HSLA.render ((createHSLA 200 100 50 (some 1)).shift 60) = "hsla(200, 100%, 0%, 1)" := by
  rw [shift_200, render_200]

/-- Claim C4 (amended): `shift` compares the luminance
`0.299·R/255 + 0.587·G/255 + 0.114·B/255` of the `toRgb` triple with 0.5
and adjusts lightness by `+amount` (luminance below 0.5) or `-amount`
(otherwise), leaving hue, saturation and alpha exactly as a zero-delta
`adjust` would.  For the concrete input `{h:200, s:100, l:50, a:1}` the
luminance is `379/750 ≈ 0.505`, which is *not* below 0.5, so `shift 60`
darkens: the result renders as `"hsla(200, 100%, 0%, 1)"` (the original
claim expected lightening to `100%`). -/
theorem shift_luminance_rule :
    (∀ (c : HSLA) (amount : ℚ),
      c.shift amount =
        (if c.luminance < 0.5 then c.adjust { l := some amount }
         else c.adjust { l := some (-amount) }) ∧
      (c.shift amount).h = (c.adjust {}).h ∧
      (c.shift amount).s = (c.adjust {}).s ∧
      (c.shift amount).a = (c.adjust {}).a) ∧
    HSLA.render ((createHSLA 200 100 50 (some 1)).shift 60) = "hsla(200, 100%, 0%, 1)" := by
  constructor
  · intro c amount
    refine ⟨rfl, ?_, ?_, ?_⟩ <;>
      (unfold HSLA.shift; by_cases hb : c.luminance < 0.5 <;> simp [hb] <;> rfl)
  · exact shift_200_render

/-- Counterexample to C4 as stated: on `Construct({h:200, s:100, l:50, a:1})`
the code's `shift 60` renders as `"hsla(200, 100%, 0%, 1)"`, not the
claimed `"hsla(200, 100%, 100%, 1)"` — the luminance of that color is
`379/750 ≥ 0.5`, so the negative branch is taken. -/
theorem shift_200_not_lightened :
    HSLA.render ((createHSLA 200 100 50 (some 1)).shift 60) = "hsla(200, 100%, 0%, 1)" ∧
    HSLA.render ((createHSLA 200 100 50 (some 1)).shift 60) ≠ "hsla(200, 100%, 100%, 1)" := by
  refine ⟨shift_200_render, ?_⟩
  rw [shift_200_render]
  decide

/-! ### Matcher lemmas -/

lemma data_hsla : "hsla(".data = ['h', 's', 'l', 'a', '('] := rfl

lemma data_comma_sp : ", ".data = [',', ' '] := rfl

lemma data_pct_comma_sp : "%, ".data = ['%', ',', ' '] := rfl

lemma data_close : ")".data = [')'] := rfl

lemma expectStr_self_append (xs rest : List Char) :
    expectStr xs (xs ++ rest) = some rest := by
  induction xs with
  | nil => rfl
  | cons x t ih => simp [expectStr, ih]

lemma expectCh_cons (c : Char) (rest : List Char) :
    expectCh c (c :: rest) = some rest := by
  simp [expectCh]

lemma space_not_digit {c : Char} (h : isJsSpace c = true) : c.isDigit = false := by
  have hmem : c ∈ jsSpaceChars := of_decide_eq_true h
  have hall : ∀ x ∈ jsSpaceChars, x.isDigit = false := by decide
  exact hall c hmem

lemma digit_not_space {c : Char} (h : c.isDigit = true) : isJsSpace c = false := by
  cases hsp : isJsSpace c
  · rfl
  · rw [space_not_digit hsp] at h
    cases h

lemma skipSpacesJs_cons_space (cs : List Char) :
    skipSpacesJs (' ' :: cs) = skipSpacesJs cs := by
  have h : isJsSpace ' ' = true := by decide
  simp [skipSpacesJs, h]

lemma skipSpacesJs_head_not_space {cs : List Char}
    (h : ∀ c, cs.head? = some c → isJsSpace c = false) : skipSpacesJs cs = cs := by
  cases cs with
  | nil => rfl
  | cons c t => simp [skipSpacesJs, h c rfl]

lemma skipSpacesJs_digits_append {ds : List Char} (rest : List Char)
    (hne : ds ≠ []) (hd : ∀ c ∈ ds, c.isDigit = true) :
    skipSpacesJs (ds ++ rest) = ds ++ rest := by
  apply skipSpacesJs_head_not_space
  intro c hc
  cases ds with
  | nil => exact absurd rfl hne
  | cons d t =>
    simp only [List.cons_append, List.head?_cons, Option.some.injEq] at hc
    rw [← hc]
    exact digit_not_space (hd d (by simp))

lemma head_not_digit_cons {x : Char} (hx : x.isDigit = false) (xs : List Char) :
    ∀ c, (x :: xs).head? = some c → c.isDigit = false := by
  intro c hc
  simp only [List.head?_cons, Option.some.injEq] at hc
  rw [← hc]
  exact hx

lemma matchAtHSLA_assembled (dH dS dL dA rest : List Char)
    (hHne : dH ≠ []) (hHd : ∀ c ∈ dH, c.isDigit = true)
    (hSne : dS ≠ []) (hSd : ∀ c ∈ dS, c.isDigit = true)
    (hLne : dL ≠ []) (hLd : ∀ c ∈ dL, c.isDigit = true)
    (hA : (dA ≠ [] ∧ ∀ c ∈ dA, c.isDigit = true) ∨
      (∃ ip fp, dA = ip ++ '.' :: fp ∧ (∀ c ∈ ip, c.isDigit = true) ∧ fp ≠ [] ∧
        (∀ c ∈ fp, c.isDigit = true))) :
    matchAtHSLA ('h' :: 's' :: 'l' :: 'a' :: '(' ::
      (dH ++ ',' :: ' ' :: (dS ++ '%' :: ',' :: ' ' :: (dL ++ '%' :: ',' :: ' ' ::
        (dA ++ ')' :: rest))))) = some ⟨dH, dS, dL, dA⟩ := by
  unfold matchAtHSLA
  rw [data_hsla]
  rw [show ('h' :: 's' :: 'l' :: 'a' :: '(' ::
      (dH ++ ',' :: ' ' :: (dS ++ '%' :: ',' :: ' ' :: (dL ++ '%' :: ',' :: ' ' ::
        (dA ++ ')' :: rest))))) = ['h', 's', 'l', 'a', '('] ++
      (dH ++ ',' :: ' ' :: (dS ++ '%' :: ',' :: ' ' :: (dL ++ '%' :: ',' :: ' ' ::
        (dA ++ ')' :: rest)))) from rfl]
  rw [expectStr_self_append ['h', 's', 'l', 'a', '(']]
  simp only [Option.bind_eq_bind, Option.some_bind]
  rw [takeDigits_append dH _ hHd (@head_not_digit_cons ',' rfl _)]
  dsimp only
  rw [if_neg hHne, expectCh_cons]
  simp only [Option.some_bind]
  rw [skipSpacesJs_cons_space, skipSpacesJs_digits_append _ hSne hSd,
    takeDigits_append dS _ hSd (@head_not_digit_cons '%' rfl _)]
  dsimp only
  rw [if_neg hSne, expectCh_cons]
  simp only [Option.some_bind]
  rw [expectCh_cons]
  simp only [Option.some_bind]
  rw [skipSpacesJs_cons_space, skipSpacesJs_digits_append _ hLne hLd,
    takeDigits_append dL _ hLd (@head_not_digit_cons '%' rfl _)]
  dsimp only
  rw [if_neg hLne, expectCh_cons]
  simp only [Option.some_bind]
  rw [expectCh_cons]
  simp only [Option.some_bind]
  rw [skipSpacesJs_cons_space]
  rcases hA with ⟨hAne, hAd⟩ | ⟨ip, fp, hAeq, hip, hfpne, hfp⟩
  · rw [skipSpacesJs_digits_append _ hAne hAd,
      takeDigits_append dA _ hAd (@head_not_digit_cons ')' rfl _)]
    dsimp only
    rw [expectCh_cons]
    rfl
  · subst hAeq
    have hassoc : (ip ++ '.' :: fp) ++ ')' :: rest = ip ++ '.' :: (fp ++ ')' :: rest) := by
      simp
    rw [hassoc]
    rw [skipSpacesJs_head_not_space (by
      cases ip with
      | nil =>
        intro c hc
        simp only [List.nil_append, List.head?_cons, Option.some.injEq] at hc
        rw [← hc]
        decide
      | cons i t =>
        intro c hc
        simp only [List.cons_append, List.head?_cons, Option.some.injEq] at hc
        rw [← hc]
        exact digit_not_space (hip i (by simp)))]
    rw [takeDigits_append ip _ hip (@head_not_digit_cons '.' rfl _)]
    dsimp only
    show (if (takeDigits (fp ++ ')' :: rest)).1 = [] then none
        else (expectCh ')' (takeDigits (fp ++ ')' :: rest)).2).bind fun _ =>
          pure (HSLAGroups.mk dH dS dL
            (ip ++ '.' :: (takeDigits (fp ++ ')' :: rest)).1))) =
      some (HSLAGroups.mk dH dS dL (ip ++ '.' :: fp))
    rw [takeDigits_append fp _ hfp (@head_not_digit_cons ')' rfl _)]
    dsimp only
    rw [if_neg hfpne, expectCh_cons]
    rfl

lemma searchHSLA_of_matchAt {cs : List Char} {g : HSLAGroups}
    (hm : matchAtHSLA cs = some g) : searchHSLA cs = some g := by
  cases cs with
  | nil => rw [searchHSLA]; exact hm
  | cons c t => simp only [searchHSLA, hm]

lemma searchHSLA_append_isSome (xs : List Char) {ys : List Char} {g : HSLAGroups}
    (hm : matchAtHSLA ys = some g) : (searchHSLA (xs ++ ys)).isSome = true := by
  induction xs with
  | nil => simp [searchHSLA_of_matchAt hm]
  | cons x t ih =>
    rw [List.cons_append]
    rcases hmm : matchAtHSLA (x :: (t ++ ys)) with _ | g2
    · simp only [searchHSLA, hmm]
      exact ih
    · simp only [searchHSLA, hmm, Option.isSome_some]

lemma searchHSLA_first (xs : List Char) {ys : List Char} {g : HSLAGroups}
    (hnone : ∀ j, j < xs.length → matchAtHSLA (List.drop j (xs ++ ys)) = none)
    (hm : matchAtHSLA ys = some g) : searchHSLA (xs ++ ys) = some g := by
  induction xs with
  | nil => exact searchHSLA_of_matchAt hm
  | cons x t ih =>
    rw [List.cons_append]
    have h0 : matchAtHSLA (x :: (t ++ ys)) = none := by
      have := hnone 0 (by simp)
      simpa using this
    simp only [searchHSLA, h0]
    exact ih fun j hj => by
      have := hnone (j + 1) (by simpa using Nat.succ_lt_succ hj)
      simpa [List.drop_succ_cons] using this

/-! ### Claim C2 -/

/-- Claim C2 (amended): for every ColorValue whose stored `h`, `s`, `l`
are *nonnegative* integers and whose stored alpha is a decimal fraction
with at most six fractional digits (so that JavaScript prints it in plain
positional notation), `parse (x.toString())` returns a ColorValue with
exactly the same four channels.  A negative stored hue — reachable, since
`Construct` keeps the sign of `h % 360` — renders with a minus sign, which
the parse pattern `hsla\(\d+,…` rejects (see the counterexample). -/
theorem parse_render_roundtrip (H S L : ℕ) (A : ℚ)
    (hH : H < 360) (hS : S ≤ 100) (hL : L ≤ 100)
    (hA0 : 0 ≤ A) (hA1 : A ≤ 1) (hden : A.den ∣ 10 ^ 6) :
    fromStringHSLA (HSLA.render (createHSLA (H : ℚ) (S : ℚ) (L : ℚ) (some A))) =
      some (createHSLA (H : ℚ) (S : ℚ) (L : ℚ) (some A)) := by
  have hcfix : createHSLA (H : ℚ) (S : ℚ) (L : ℚ) (some A) =
      ⟨(H : ℚ), (S : ℚ), (L : ℚ), some A⟩ := by
    have h1 : jsMod (H : ℚ) 360 = (H : ℚ) :=
      jsMod_eq_self (Nat.cast_nonneg H) (by exact_mod_cast hH)
    have h2 : min (100 : ℚ) (max 0 (S : ℚ)) = (S : ℚ) := by
      rw [max_eq_right (Nat.cast_nonneg S), min_eq_right (by exact_mod_cast hS)]
    have h3 : min (100 : ℚ) (max 0 (L : ℚ)) = (L : ℚ) := by
      rw [max_eq_right (Nat.cast_nonneg L), min_eq_right (by exact_mod_cast hL)]
    have h4 : clampA (some A) = some A := by
      simp [clampA, max_eq_right hA0, min_eq_right hA1]
    unfold createHSLA
    rw [h1, h2, h3, h4]
  have hrc : renderChars ⟨(H : ℚ), (S : ℚ), (L : ℚ), some A⟩ =
      'h' :: 's' :: 'l' :: 'a' :: '(' ::
        (natDigits H ++ ',' :: ' ' :: (natDigits S ++ '%' :: ',' :: ' ' ::
          (natDigits L ++ '%' :: ',' :: ' ' :: (numChars A ++ ')' :: [])))) := by
    unfold renderChars alphaChars
    dsimp only
    rw [numChars_natCast, numChars_natCast, numChars_natCast]
    simp [List.append_assoc]
  obtain ⟨hshape, hparse⟩ := alpha_chars_spec hA0 hA1 hden
  have hshape' : (numChars A ≠ [] ∧ ∀ c ∈ numChars A, c.isDigit = true) ∨
      (∃ ip fp, numChars A = ip ++ '.' :: fp ∧ (∀ c ∈ ip, c.isDigit = true) ∧
        fp ≠ [] ∧ (∀ c ∈ fp, c.isDigit = true)) := by
    rcases hshape with h | ⟨ip, fp, e, _, hfpne, hipd, hfpd⟩
    · exact Or.inl h
    · exact Or.inr ⟨ip, fp, e, hipd, hfpne, hfpd⟩
  have hmatch := matchAtHSLA_assembled (natDigits H) (natDigits S) (natDigits L)
    (numChars A) [] (natDigits_ne_nil H) (natDigits_all_digit H)
    (natDigits_ne_nil S) (natDigits_all_digit S)
    (natDigits_ne_nil L) (natDigits_all_digit L) hshape'
  rw [hcfix]
  unfold fromStringHSLA HSLA.render
  dsimp only
  rw [hrc, searchHSLA_of_matchAt hmatch]
  dsimp only
  rw [parseNat_natDigits, parseNat_natDigits, parseNat_natDigits, hparse, hcfix]

/-- Witness for C2 at the spec's scenario color
`{h:120, s:100, l:50, a:0.5}` (renders as `"hsla(120, 100%, 50%, 0.5)"`). -/
theorem parse_render_roundtrip_witness :
    fromStringHSLA (HSLA.render (createHSLA ((120 : ℕ) : ℚ) ((100 : ℕ) : ℚ)
        ((50 : ℕ) : ℚ) (some (1 / 2)))) =
      some (createHSLA ((120 : ℕ) : ℚ) ((100 : ℕ) : ℚ) ((50 : ℕ) : ℚ) (some (1 / 2))) :=
  parse_render_roundtrip 120 100 50 (1 / 2) (by norm_num) (by norm_num) (by norm_num)
    (by norm_num) (by norm_num) (by norm_num [Rat.den])

/-- Counterexample to C2 as stated: the ColorValue `Construct({h:-10, a:1})`
has integer stored channels (`hue = -10`) and finite-decimal alpha, but its
rendering `"hsla(-10, 0%, 0%, 1)"` does not match the parse pattern (the
hue group is `\d+`), so `parse` returns the null sentinel instead of
reproducing the channels. -/
theorem parse_render_negative_hue_fails :
    (createHSLA (-10) 0 0 (some 1)).h = -10 ∧
    fromStringHSLA (HSLA.render (createHSLA (-10) 0 0 (some 1))) = none := by
  have hc : createHSLA (-10) 0 0 (some 1) = ⟨-10, 0, 0, some 1⟩ := by
    unfold createHSLA clampA jsMod ratTrunc
    norm_num
  refine ⟨by rw [hc], ?_⟩
  rw [hc]
  unfold HSLA.render renderChars alphaChars
  dsimp only
  have hn10 : numChars (-10 : ℚ) = '-' :: natDigits 10 := by
    rw [show ((-10 : ℚ)) = -((10 : ℕ) : ℚ) by norm_num]
    exact numChars_neg_natCast 10 (by norm_num)
  have hn0 : numChars (0 : ℚ) = natDigits 0 := by
    rw [show ((0 : ℚ)) = ((0 : ℕ) : ℚ) by norm_num, numChars_natCast]
  have hn1 : numChars (1 : ℚ) = natDigits 1 := by
    rw [show ((1 : ℚ)) = ((1 : ℕ) : ℚ) by norm_num, numChars_natCast]
  rw [hn10, hn0, hn1]
  decide

/-! ### Claim C7 -/

/-- Claim C7: `fromStringHSLA` returns the null sentinel (never an error
value) on any non-matching input — in particular on `"not-a-color"` — and
every successful parse is produced by feeding the captured numbers back
through `createHSLA`, so constructor normalisation reapplies. -/
theorem parse_null_on_nonmatch (s : String) (c : HSLA)
    (hp : fromStringHSLA s = some c) :
    (∃ h sv lv a, c = createHSLA h sv lv a) ∧
    fromStringHSLA "not-a-color" = none := by
  constructor
  · unfold fromStringHSLA at hp
    rcases hsr : searchHSLA s.data with _ | g
    · rw [hsr] at hp
      cases hp
    · rw [hsr] at hp
      injection hp with hp
      exact ⟨_, _, _, _, hp.symm⟩
  · decide

/-- Witness for C7 at the parseable input `"hsla(0, 0%, 0%, 1)"`. -/
theorem parse_null_on_nonmatch_witness :
    (∃ h sv lv a, createHSLA 0 0 0 (some 1) = createHSLA h sv lv a) ∧
    fromStringHSLA "not-a-color" = none :=
  parse_null_on_nonmatch "hsla(0, 0%, 0%, 1)" (createHSLA 0 0 0 (some 1)) (by
    have hs : searchHSLA ("hsla(0, 0%, 0%, 1)".data) =
        some ⟨['0'], ['0'], ['0'], ['1']⟩ := by decide
    unfold fromStringHSLA
    rw [hs]
    dsimp only
    have p0 : parseNat ['0'] = 0 := by decide
    have pf : parseFloatQ ['1'] = some ((parseNat ['1'] : ℚ)) :=
      parseFloatQ_digits _ (by decide) (by decide)
    have p1 : parseNat ['1'] = 1 := by decide
    rw [p0, pf, p1]
    norm_num)

/-! ### Claim C9 -/

/-- Claim C9: the pattern is searched for anywhere in the input, not
anchored.  For every prefix and suffix around a canonical
`hsla(<int>, <int>%, <int>%, <decimal>)` chunk — the alpha being any
numeral the group `\d*(\.\d+)?` accepts, integer or decimal — the parse
is non-null; when the pattern matches at no position inside the prefix
(i.e. the chunk is the first embedded occurrence), the result is built
exactly from that occurrence's capture groups; and on
`"xx hsla(1, 2%, 3%, 0.5) yy"` it returns the color built from the
embedded occurrence. -/
theorem parse_matches_embedded_occurrence (pre suf : String) (H S L : ℕ)
    (dA : List Char) (hA : AlphaGroupShape dA) :
    fromStringHSLA (pre ++ String.mk (canonHSLAChars H S L dA) ++ suf) ≠ none ∧
    ((∀ j, j < pre.data.length →
        matchAtHSLA (List.drop j (pre.data ++ (canonHSLAChars H S L dA ++ suf.data))) =
          none) →
      fromStringHSLA (pre ++ String.mk (canonHSLAChars H S L dA) ++ suf) =
        some (createHSLA ((H : ℚ)) ((S : ℚ)) ((L : ℚ)) (parseFloatQ dA))) ∧
    fromStringHSLA "xx hsla(1, 2%, 3%, 0.5) yy" = some (createHSLA 1 2 3 (some (1 / 2))) := by
  have hform : canonHSLAChars H S L dA ++ suf.data =
      'h' :: 's' :: 'l' :: 'a' :: '(' ::
        (natDigits H ++ ',' :: ' ' :: (natDigits S ++ '%' :: ',' :: ' ' ::
          (natDigits L ++ '%' :: ',' :: ' ' :: (dA ++ ')' :: suf.data)))) := by
    unfold canonHSLAChars
    simp [List.append_assoc]
  have hm : matchAtHSLA (canonHSLAChars H S L dA ++ suf.data) =
      some ⟨natDigits H, natDigits S, natDigits L, dA⟩ := by
    rw [hform]
    exact matchAtHSLA_assembled _ _ _ _ _ (natDigits_ne_nil H) (natDigits_all_digit H)
      (natDigits_ne_nil S) (natDigits_all_digit S)
      (natDigits_ne_nil L) (natDigits_all_digit L) hA
  have hdata : (pre ++ String.mk (canonHSLAChars H S L dA) ++ suf).data =
      pre.data ++ (canonHSLAChars H S L dA ++ suf.data) := by
    rw [String.data_append, String.data_append]
    simp [List.append_assoc]
  refine ⟨?_, ?_, ?_⟩
  · have hsome := searchHSLA_append_isSome pre.data hm
    unfold fromStringHSLA
    rw [hdata]
    rcases hg : searchHSLA (pre.data ++ (canonHSLAChars H S L dA ++ suf.data)) with _ | g
    · rw [hg] at hsome
      cases hsome
    · simp
  · intro hfirst
    have hsearch : searchHSLA (pre.data ++ (canonHSLAChars H S L dA ++ suf.data)) =
        some ⟨natDigits H, natDigits S, natDigits L, dA⟩ :=
      searchHSLA_first pre.data hfirst hm
    unfold fromStringHSLA
    rw [hdata, hsearch]
    dsimp only
    rw [parseNat_natDigits, parseNat_natDigits, parseNat_natDigits]
  · have hs : searchHSLA ("xx hsla(1, 2%, 3%, 0.5) yy".data) =
        some ⟨['1'], ['2'], ['3'], ['0', '.', '5']⟩ := by decide
    unfold fromStringHSLA
    rw [hs]
    dsimp only
    have pf : parseFloatQ (['0'] ++ '.' :: ['5']) =
        some ((parseNat ['0'] : ℚ) + (parseNat ['5'] : ℚ) / 10 ^ (['5'] : List Char).length) :=
      parseFloatQ_dot ['0'] ['5'] (by decide)
    rw [show (['0', '.', '5'] : List Char) = ['0'] ++ '.' :: ['5'] from rfl, pf]
    have pa : parseNat ['1'] = 1 := by decide
    have pb : parseNat ['2'] = 2 := by decide
    have pc : parseNat ['3'] = 3 := by decide
    have p0 : parseNat ['0'] = 0 := by decide
    have p5 : parseNat ['5'] = 5 := by decide
    rw [pa, pb, pc, p0, p5]
    norm_num

/-- Witness for C9: prefix `"xx "`, suffix `" yy"`, channels `1, 2%, 3%`
and the decimal alpha numeral `0.5`. -/
theorem parse_matches_embedded_occurrence_witness :
    fromStringHSLA ("xx " ++ String.mk (canonHSLAChars 1 2 3 ['0', '.', '5']) ++ " yy") ≠
      none ∧
    ((∀ j, j < "xx ".data.length →
        matchAtHSLA (List.drop j ("xx ".data ++
          (canonHSLAChars 1 2 3 ['0', '.', '5'] ++ " yy".data))) = none) →
      fromStringHSLA ("xx " ++ String.mk (canonHSLAChars 1 2 3 ['0', '.', '5']) ++ " yy") =
        some (createHSLA (((1 : ℕ) : ℚ)) (((2 : ℕ) : ℚ)) (((3 : ℕ) : ℚ))
          (parseFloatQ ['0', '.', '5']))) ∧
    fromStringHSLA "xx hsla(1, 2%, 3%, 0.5) yy" = some (createHSLA 1 2 3 (some (1 / 2))) :=
  parse_matches_embedded_occurrence "xx " " yy" 1 2 3 ['0', '.', '5']
    (Or.inr ⟨['0'], ['5'], rfl, by decide, by decide, by decide⟩)

/-! ### Claim C10 -/

/-- Claim C10: the alpha group `\d*(\.\d+)?` may match the empty string,
so `"hsla(0, 0%, 0%, )"` parses successfully and `parseFloat("")` produces
a NaN alpha (modelled by `none`), which the `min`/`max` clamp propagates
unchanged: the resulting ColorValue's alpha is not a number in `[0, 1]`. -/
theorem parse_empty_alpha_nan :
    fromStringHSLA "hsla(0, 0%, 0%, )" = some (createHSLA 0 0 0 none) ∧
    (createHSLA 0 0 0 none).a = none ∧
    ∀ q : ℚ, (createHSLA 0 0 0 none).a ≠ some q := by
  refine ⟨?_, rfl, fun q h => Option.noConfusion h⟩
  have hs : searchHSLA ("hsla(0, 0%, 0%, )".data) =
      some ⟨['0'], ['0'], ['0'], []⟩ := by decide
  unfold fromStringHSLA
  rw [hs]
  dsimp only
  have p0 : parseNat ['0'] = 0 := by decide
  have pe : parseFloatQ [] = none := rfl
  rw [p0, pe]
  norm_num
